import Mathlib

/-!
Shallow embedding of the adaptive question recommendation subsystem of the
LeetNode repository, together with theorems checking the natural-language
specification against the code.

The embedding follows the source files:
  * src/leetnode/src/pages/api/question/questionsWithAddedTime.ts (the
    question-serving endpoint handler);
  * src/leetnode/src/pages/quiz/index.tsx (the quiz page, the answer
    correctness check, the question editor with its zod validation, the
    gap-filling variation-id computation, the welcome-quiz session gating);
  * the Prisma schema glued into src/leetnode/src/utils/CustomVerification.ts
    (Mastery, Topic, Question, QuestionWithAddedTime, Attempt models).

`CustomEval`, `CustomMath` and `Recommender` are imported by the sources but
absent from src/; they are treated as oracles (function parameters) or, where
a claim depends on their behaviour, modelled from the spec with a doc comment
saying so.
-/

namespace LeetNode

/-- One answer option of a question, as in `UCQATAnswersType` of
src/leetnode/src/pages/quiz/index.tsx. -/
structure AnswerOption where
  key : String
  answerContent : String
  isCorrect : Bool
  isLatex : Bool
  deriving Repr, DecidableEq

/-- One variable definition of a dynamic question
(`QuestionDataType["variables"]` entries of the question editor form). -/
structure VarSpec where
  name : String
  randomize : Bool
  isFinalAnswer : Bool
  unit : Option String
  defaultVal : Option String
  deriving Repr, DecidableEq

/-- One derivation method of a dynamic question (an `expr` of the editor's
`methods` list). -/
structure MethodSpec where
  expr : String
  explanation : Option String
  deriving Repr, DecidableEq

/-- The `questionData` JSON payload of a `Question` row: variable definitions
(`variables` in the source; `vars` here because `variables` is a Lean
command), methods, and the optional fixed answer set (present for static
questions, `undefined` for dynamic ones per the editor submit handler). -/
structure QuestionData where
  vars : List VarSpec
  methods : List MethodSpec
  answers : Option (List AnswerOption)
  deriving Repr, DecidableEq

/-- A `Question` row of the Prisma schema (the fields the endpoint uses). -/
structure Question where
  questionId : Int
  variationId : Int
  topicSlug : String
  questionData : QuestionData
  deriving Repr, DecidableEq

/-- A `QuestionWithAddedTime` row of the Prisma schema: a question
materialized for one user in one course.  `addedTime` is modelled as a
natural-number timestamp. -/
structure QAT where
  qatId : String
  questionId : Int
  variationId : Int
  userId : String
  courseSlug : String
  vars : List VarSpec
  answers : Option (List AnswerOption)
  addedTime : Nat
  deriving Repr, DecidableEq

/-- An `Attempt` row of the Prisma schema (the fields the claims use):
linked to exactly one `QuestionWithAddedTime` by `qatId`. -/
structure Attempt where
  attemptId : String
  qatId : String
  userId : String
  courseSlug : String
  attemptedKeys : List String
  isCorrect : Bool
  submittedAt : Nat
  deriving Repr, DecidableEq

/-! ## C2: the answer correctness check of the quiz page

From src/leetnode/src/pages/quiz/index.tsx:
  `correctKeys = answerOptions.filter((item) => item.isCorrect).map((item) => item.key)`
  `isCorrect: selectedKeys.length === correctKeys.length &&
              selectedKeys.every((item) => correctKeys.includes(item))`
-/

/-- `correctKeys` of the quiz page: keys of the options marked correct. -/
def correctKeys (answerOptions : List AnswerOption) : List String :=
  (answerOptions.filter (fun item => item.isCorrect)).map (fun item => item.key)

/-- The `isCorrect` value computed by the quiz form submit handler. -/
def computeIsCorrect (selectedKeys ckeys : List String) : Bool :=
  selectedKeys.length == ckeys.length &&
    selectedKeys.all (fun item => ckeys.contains item)

lemma correctKeys_nodup {answerOptions : List AnswerOption}
    (h : (answerOptions.map (fun o => o.key)).Nodup) :
    (correctKeys answerOptions).Nodup := by
  unfold correctKeys
  have hsub : List.Sublist
      ((answerOptions.filter (fun item => item.isCorrect)).map (fun o => o.key))
      (answerOptions.map (fun o => o.key)) :=
    List.Sublist.map _ (List.filter_sublist _)
  exact h.sublist hsub

lemma computeIsCorrect_iff (a b : List String) (ha : a.Nodup) (hb : b.Nodup) :
    computeIsCorrect a b = true ↔ a.toFinset = b.toFinset := by
  unfold computeIsCorrect
  simp only [Bool.and_eq_true, beq_iff_eq, List.all_eq_true, List.contains,
    List.elem_iff]
  constructor
  · rintro ⟨hlen, hsub⟩
    have hsubset : a.toFinset ⊆ b.toFinset := by
      intro x hx
      rw [List.mem_toFinset] at hx ⊢
      exact hsub x hx
    apply Finset.eq_of_subset_of_card_le hsubset
    rw [List.toFinset_card_of_nodup ha, List.toFinset_card_of_nodup hb, hlen]
  · intro hset
    constructor
    · rw [← List.toFinset_card_of_nodup ha, ← List.toFinset_card_of_nodup hb, hset]
    · intro x hx
      have : x ∈ a.toFinset := List.mem_toFinset.mpr hx
      rw [hset, List.mem_toFinset] at this
      exact this

/-- C2: for answer option sets with pairwise-distinct keys and submitted
selections of distinct keys, the computed `isCorrect` is true iff the set of
selected keys equals the set of keys of the options marked `isCorrect`. -/
theorem isCorrect_iff_selected_eq_correct
    (answerOptions : List AnswerOption) (selectedKeys : List String)
    (hkeys : (answerOptions.map (fun o => o.key)).Nodup)
    (hsel : selectedKeys.Nodup) :
    computeIsCorrect selectedKeys (correctKeys answerOptions) = true ↔
      selectedKeys.toFinset = (correctKeys answerOptions).toFinset :=
  computeIsCorrect_iff _ _ hsel (correctKeys_nodup hkeys)

/-- Four options with keys A,B,C,D of which A and C are correct. -/
def fourOptions : List AnswerOption :=
  [⟨"A", "1", true, false⟩, ⟨"B", "2", false, false⟩,
   ⟨"C", "3", true, false⟩, ⟨"D", "4", false, false⟩]

/-- Witness for C2 at a concrete input: with 2 correct keys out of 4 options,
selecting both correct keys yields `isCorrect = true`, and selecting one
correct plus one incorrect key yields `isCorrect = false`. -/
theorem isCorrect_iff_selected_eq_correct_witness :
    ((fourOptions.map (fun o => o.key)).Nodup ∧ (["A", "C"] : List String).Nodup ∧
      (computeIsCorrect ["A", "C"] (correctKeys fourOptions) = true ↔
        (["A", "C"] : List String).toFinset = (correctKeys fourOptions).toFinset)) ∧
    computeIsCorrect ["A", "C"] (correctKeys fourOptions) = true ∧
    computeIsCorrect ["A", "B"] (correctKeys fourOptions) = false := by
  refine ⟨⟨by decide, by decide,
    isCorrect_iff_selected_eq_correct fourOptions ["A", "C"] (by decide) (by decide)⟩,
    by decide, by decide⟩

/-! ## The question-serving endpoint
(src/leetnode/src/pages/api/question/questionsWithAddedTime.ts) -/

/-- The hard-coded excluded question id list of the endpoint handler. -/
def excluded2025QuestionIds : List Int :=
  [89, 98, 90, 91, 92, 93, 94, 95, 96, 97,
   79, 106, 107, 108, 99, 74, 100, 101, 102, 103, 104, 105]

/-- The excluded id set after processing the `prevId` query parameter:
`if (prevId) { if (!excluded2025QuestionIds.includes(numericPrevId))
excluded2025QuestionIds.push(numericPrevId) }`. -/
def excludedIds (prevId : Option Int) : List Int :=
  match prevId with
  | none => excluded2025QuestionIds
  | some p =>
      if excluded2025QuestionIds.contains p then excluded2025QuestionIds
      else excluded2025QuestionIds ++ [p]

/-- The `where` filter of the handler's `findFirst` query: rows of this user
and course whose `questionId` is not in the excluded set.  The query has no
condition on `Attempt` rows. -/
def qatMatches (uid course : String) (excluded : List Int) (q : QAT) : Bool :=
  q.userId == uid && q.courseSlug == course && !(excluded.contains q.questionId)

/-- One comparison step of scanning rows ordered by `addedTime` descending:
keep the row with the larger `addedTime` (the earlier one on ties). -/
def newerOf (acc : Option QAT) (q : QAT) : Option QAT :=
  match acc with
  | none => some q
  | some b => if b.addedTime < q.addedTime then some q else some b

/-- `findFirst` with `orderBy: { addedTime: "desc" }`: the row with the
largest `addedTime` among the matching rows (`none` when no row matches). -/
def findNewest (rows : List QAT) : Option QAT :=
  rows.foldl newerOf none

/-- The value returned by `RecommendQuestion` (src/leetnode/src/utils/
Recommender.ts, absent from src/): a topic name and a question. -/
structure RecommenderResult where
  recommendedTopicName : String
  recommendedQuestion : Question
  deriving Repr, DecidableEq

/-- The value returned by `CustomEval` (src/leetnode/src/utils/CustomEval.ts,
absent from src/) on success: resolved variables and computed answers. -/
structure EvalOutput where
  questionVariables : List VarSpec
  questionAnswers : List AnswerOption
  deriving Repr, DecidableEq

/-- What one call of the endpoint handler did: the served row, the stored
table afterwards, and whether `RecommendQuestion` / `CustomEval` ran. -/
structure HandlerResult where
  response : QAT
  newDb : List QAT
  usedRecommender : Bool
  usedEval : Bool
  deriving Repr, DecidableEq

/-- The `prisma.questionWithAddedTime.create` data of the handler's
recommendation branch.  `evaluated` is `CustomEval(questionData.variables,
questionData.methods)` when `variationId === 0` and `undefined` otherwise;
the stored variables are `evaluatedQuestionData?.questionVariables ??
questionData.variables` and the stored answers are
`CustomMath.shuffleArray(questionData.answers ??
evaluatedQuestionData?.questionAnswers)`. -/
def createdRow (rr : RecommenderResult)
    (custEval : List VarSpec → List MethodSpec → EvalOutput)
    (shuffle : List AnswerOption → List AnswerOption)
    (newQatId : String) (now : Nat) (uid course : String) : QAT :=
  let qd := rr.recommendedQuestion.questionData
  let evaluated : Option EvalOutput :=
    if rr.recommendedQuestion.variationId = 0
    then some (custEval qd.vars qd.methods) else none
  { qatId := newQatId
    questionId := rr.recommendedQuestion.questionId
    variationId := rr.recommendedQuestion.variationId
    userId := uid
    courseSlug := course
    vars := (evaluated.map (fun e => e.questionVariables)).getD qd.vars
    answers := (qd.answers.orElse
      (fun _ => evaluated.map (fun e => e.questionAnswers))).map shuffle
    addedTime := now }

/-- The endpoint handler of questionsWithAddedTime.ts.  `db` is the stored
`QuestionWithAddedTime` table; `recommend`, `custEval` and `shuffle` are the
imported collaborators `RecommendQuestion`, `CustomEval` and
`CustomMath.shuffleArray` (their sources are absent from src/), passed as
oracles; `newQatId` and `now` stand for `cuid()` and `now()` of a `create`.
Faithful details of the source: the stored-rows query excludes
`excludedIds prevId` and has no condition on attempts; `RecommendQuestion`
is called as `RecommendQuestion(req.query.courseSlug, 0)` — the excluded id
set is not passed to it; `CustomEval` runs iff `variationId === 0`. -/
def handler (db : List QAT) (recommend : String → Nat → RecommenderResult)
    (custEval : List VarSpec → List MethodSpec → EvalOutput)
    (shuffle : List AnswerOption → List AnswerOption)
    (newQatId : String) (now : Nat)
    (uid course : String) (prevId : Option Int) : HandlerResult :=
  match findNewest (db.filter (qatMatches uid course (excludedIds prevId))) with
  | some row => ⟨row, db, false, false⟩
  | none =>
      let row := createdRow (recommend course 0) custEval shuffle newQatId now uid course
      ⟨row, db ++ [row], true,
       decide ((recommend course 0).recommendedQuestion.variationId = 0)⟩

lemma foldl_newerOf_some (rows : List QAT) :
    ∀ b : QAT, ∃ q, rows.foldl newerOf (some b) = some q ∧
      b.addedTime ≤ q.addedTime ∧ (q = b ∨ q ∈ rows) ∧
      ∀ r ∈ rows, r.addedTime ≤ q.addedTime := by
  induction rows with
  | nil =>
      intro b
      exact ⟨b, rfl, le_refl _, Or.inl rfl, fun r hr => absurd hr (List.not_mem_nil r)⟩
  | cons r rest ih =>
      intro b
      rw [List.foldl_cons]
      by_cases hbr : b.addedTime < r.addedTime
      · rw [show newerOf (some b) r = some r from if_pos hbr]
        obtain ⟨q, hq, hle, hmem, hmax⟩ := ih r
        refine ⟨q, hq, le_trans (le_of_lt hbr) hle, Or.inr ?_, fun s hs => ?_⟩
        · rcases hmem with rfl | h2
          · exact List.mem_cons_self _ _
          · exact List.mem_cons_of_mem _ h2
        · rcases List.mem_cons.mp hs with rfl | h2
          · exact hle
          · exact hmax s h2
      · rw [show newerOf (some b) r = some b from if_neg hbr]
        obtain ⟨q, hq, hle, hmem, hmax⟩ := ih b
        refine ⟨q, hq, hle, ?_, fun s hs => ?_⟩
        · rcases hmem with rfl | h2
          · exact Or.inl rfl
          · exact Or.inr (List.mem_cons_of_mem _ h2)
        · rcases List.mem_cons.mp hs with rfl | h2
          · exact le_trans (le_of_not_lt hbr) hle
          · exact hmax s h2

/-- `findNewest` on a nonempty row list returns a member of maximal
`addedTime`. -/
lemma findNewest_spec {rows : List QAT} {q : QAT} (h : findNewest rows = some q) :
    q ∈ rows ∧ ∀ r ∈ rows, r.addedTime ≤ q.addedTime := by
  cases rows with
  | nil => cases h
  | cons r rest =>
      unfold findNewest at h
      rw [List.foldl_cons, show newerOf none r = some r from rfl] at h
      obtain ⟨q', hq', hle, hmem, hmax⟩ := foldl_newerOf_some rest r
      rw [hq'] at h
      cases Option.some_inj.mp h
      refine ⟨?_, fun s hs => ?_⟩
      · rcases hmem with rfl | h2
        · exact List.mem_cons_self _ _
        · exact List.mem_cons_of_mem _ h2
      · rcases List.mem_cons.mp hs with rfl | h2
        · exact hle
        · exact hmax s h2

lemma contains_eq_true_iff_mem {α : Type} [BEq α] [LawfulBEq α] {l : List α} {x : α} :
    l.contains x = true ↔ x ∈ l :=
  List.elem_iff

section Handler

variable (db : List QAT) (recommend recommend2 : String → Nat → RecommenderResult)
variable (custEval custEval2 : List VarSpec → List MethodSpec → EvalOutput)
variable (shuffle shuffle2 : List AnswerOption → List AnswerOption)
variable (newQatId newQatId2 : String) (now now2 : Nat)
variable (uid course : String) (prevId : Option Int)

lemma handler_stored {row : QAT}
    (h : findNewest (db.filter (qatMatches uid course (excludedIds prevId))) = some row) :
    handler db recommend custEval shuffle newQatId now uid course prevId =
      ⟨row, db, false, false⟩ := by
  unfold handler
  rw [h]

lemma handler_fresh
    (h : findNewest (db.filter (qatMatches uid course (excludedIds prevId))) = none) :
    handler db recommend custEval shuffle newQatId now uid course prevId =
      ⟨createdRow (recommend course 0) custEval shuffle newQatId now uid course,
       db ++ [createdRow (recommend course 0) custEval shuffle newQatId now uid course],
       true,
       decide ((recommend course 0).recommendedQuestion.variationId = 0)⟩ := by
  unfold handler
  rw [h]

/-- C1 (amended): only the stored-instance branch of the endpoint filters by
the excluded id set.  A served stored instance never has an excluded
questionId; a freshly created instance carries exactly the questionId that
`RecommendQuestion` returned — the handler calls it as
`RecommendQuestion(courseSlug, 0)` and applies no exclusion filter to the
result. -/
theorem served_id_not_excluded_or_from_recommender :
    ((handler db recommend custEval shuffle newQatId now uid course prevId).usedRecommender
        = false →
      (handler db recommend custEval shuffle newQatId now uid course
        prevId).response.questionId ∉ excludedIds prevId) ∧
    ((handler db recommend custEval shuffle newQatId now uid course prevId).usedRecommender
        = true →
      (handler db recommend custEval shuffle newQatId now uid course
        prevId).response.questionId
        = (recommend course 0).recommendedQuestion.questionId) := by
  cases hfind : findNewest (db.filter (qatMatches uid course (excludedIds prevId))) with
  | some row =>
      rw [handler_stored db recommend custEval shuffle newQatId now uid course prevId hfind]
      refine ⟨fun _ => ?_, fun hcontra => Bool.noConfusion hcontra⟩
      show row.questionId ∉ excludedIds prevId
      intro hmem
      have hrow := (findNewest_spec hfind).1
      have hm := (List.mem_filter.mp hrow).2
      unfold qatMatches at hm
      simp only [Bool.and_eq_true, Bool.not_eq_true'] at hm
      have hc : (excludedIds prevId).contains row.questionId = true :=
        contains_eq_true_iff_mem.mpr hmem
      rw [hm.2] at hc
      cases hc
  | none =>
      rw [handler_fresh db recommend custEval shuffle newQatId now uid course prevId hfind]
      exact ⟨fun hcontra => Bool.noConfusion hcontra, fun _ => rfl⟩

/-- Two possible answer options used by the concrete scenarios. -/
def sampleAnswers : List AnswerOption :=
  [⟨"A", "10", true, false⟩, ⟨"B", "20", false, false⟩]

/-- A stored `QuestionWithAddedTime` row for user1 on the welcome-quiz
course, with a non-excluded questionId. -/
def sampleQat : QAT :=
  ⟨"qat1", 1, 1, "user1", "welcome-quiz", [], some sampleAnswers, 100⟩

/-- An `Attempt` row linked (by qatId) to `sampleQat`. -/
def sampleAttempt : Attempt :=
  ⟨"att1", "qat1", "user1", "welcome-quiz", ["A"], true, 150⟩

/-- A static question whose questionId 89 is in the hard-coded excluded
list of the endpoint. -/
def staticQuestion89 : Question :=
  ⟨89, 1, "topic-a", ⟨[], [], some sampleAnswers⟩⟩

/-- A recommender oracle returning `staticQuestion89`. -/
def recommender89 : String → Nat → RecommenderResult :=
  fun _ _ => ⟨"Topic A", staticQuestion89⟩

/-- An evaluator oracle (never consulted in the static scenarios). -/
def trivialEvalOracle : List VarSpec → List MethodSpec → EvalOutput :=
  fun vs _ => ⟨vs, []⟩

/-- C1 counterexample: with no stored instance, the endpoint serves the
recommender's question unfiltered, so a recommendation of question 89 —
which is in the hard-coded `excluded2025QuestionIds` — is returned with an
excluded questionId. -/
theorem served_excluded_id_counterexample :
    (handler [] recommender89 trivialEvalOracle id "newQat" 50 "user1" "welcome-quiz"
      none).response.questionId = 89 ∧ (89 : Int) ∈ excludedIds none := by
  constructor
  · rfl
  · decide

/-- C3 (amended): the instance the endpoint serves from the store is the
most recent stored instance of the (user, course) pair whose questionId is
not excluded — with no condition on Attempts: the `findFirst` query does not
consult the Attempt table. -/
theorem served_stored_instance_is_newest_matching (row : QAT)
    (h : findNewest (db.filter (qatMatches uid course (excludedIds prevId))) = some row) :
    (handler db recommend custEval shuffle newQatId now uid course prevId).response = row ∧
    row ∈ db ∧
    qatMatches uid course (excludedIds prevId) row = true ∧
    ∀ r ∈ db, qatMatches uid course (excludedIds prevId) r = true →
      r.addedTime ≤ row.addedTime := by
  obtain ⟨hmem, hmax⟩ := findNewest_spec h
  have hfilter := List.mem_filter.mp hmem
  refine ⟨?_, hfilter.1, hfilter.2, fun r hr hmatch => ?_⟩
  · rw [handler_stored db recommend custEval shuffle newQatId now uid course prevId h]
  · exact hmax r (List.mem_filter.mpr ⟨hr, hmatch⟩)

/-- Witness for C3 (amended) at a concrete input. -/
theorem served_stored_instance_is_newest_matching_witness :
    findNewest ([sampleQat].filter (qatMatches "user1" "welcome-quiz" (excludedIds none)))
        = some sampleQat ∧
    ((handler [sampleQat] recommender89 trivialEvalOracle id "newQat" 200 "user1"
        "welcome-quiz" none).response = sampleQat ∧
      sampleQat ∈ [sampleQat] ∧
      qatMatches "user1" "welcome-quiz" (excludedIds none) sampleQat = true ∧
      ∀ r ∈ [sampleQat], qatMatches "user1" "welcome-quiz" (excludedIds none) r = true →
        r.addedTime ≤ sampleQat.addedTime) :=
  ⟨by decide,
   served_stored_instance_is_newest_matching [sampleQat] recommender89 trivialEvalOracle
     id "newQat" 200 "user1" "welcome-quiz" none sampleQat (by decide)⟩

/-- C3 counterexample: the store holds one instance which already has a
matching Attempt (`sampleAttempt.qatId = sampleQat.qatId`), yet a further
call of the endpoint serves that same instance again. -/
theorem attempted_instance_served_again :
    sampleAttempt.qatId = sampleQat.qatId ∧
    (handler [sampleQat] recommender89 trivialEvalOracle id "newQat" 200 "user1"
      "welcome-quiz" none).response = sampleQat := by
  exact ⟨rfl, by decide⟩

/-- C9: whenever a non-excluded stored instance exists for the (user,
course) pair, the endpoint creates nothing, calls neither RecommendQuestion
nor CustomEval, and a second call with the same query — whatever fresh ids,
timestamps or collaborators it uses — returns the same stored instance. -/
theorem handler_idempotent_when_instance_exists (row : QAT)
    (h : findNewest (db.filter (qatMatches uid course (excludedIds prevId))) = some row) :
    handler db recommend custEval shuffle newQatId now uid course prevId
        = ⟨row, db, false, false⟩ ∧
    handler (handler db recommend custEval shuffle newQatId now uid course prevId).newDb
        recommend2 custEval2 shuffle2 newQatId2 now2 uid course prevId
        = ⟨row, db, false, false⟩ := by
  have h1 := handler_stored db recommend custEval shuffle newQatId now uid course prevId h
  refine ⟨h1, ?_⟩
  rw [h1]
  exact handler_stored db recommend2 custEval2 shuffle2 newQatId2 now2 uid course prevId h

/-- Witness for C9 at a concrete input. -/
theorem handler_idempotent_when_instance_exists_witness :
    findNewest ([sampleQat].filter (qatMatches "user1" "welcome-quiz" (excludedIds none)))
        = some sampleQat ∧
    (handler [sampleQat] recommender89 trivialEvalOracle id "newQat" 200 "user1"
        "welcome-quiz" none = ⟨sampleQat, [sampleQat], false, false⟩ ∧
      handler (handler [sampleQat] recommender89 trivialEvalOracle id "newQat" 200 "user1"
          "welcome-quiz" none).newDb recommender89 trivialEvalOracle id "newQat2" 300
          "user1" "welcome-quiz" none = ⟨sampleQat, [sampleQat], false, false⟩) :=
  ⟨by decide,
   handler_idempotent_when_instance_exists [sampleQat] recommender89 recommender89
     trivialEvalOracle trivialEvalOracle id id "newQat" "newQat2" 200 300 "user1"
     "welcome-quiz" none sampleQat (by decide)⟩

/-- Witness for C1 (amended) at a concrete input: with an empty store the
recommendation branch runs and the served questionId is exactly the
recommender's. -/
theorem served_id_not_excluded_or_from_recommender_witness :
    (handler [] recommender89 trivialEvalOracle id "newQat" 50 "user1" "welcome-quiz"
        none).usedRecommender = true ∧
    (handler [] recommender89 trivialEvalOracle id "newQat" 50 "user1" "welcome-quiz"
        none).response.questionId
      = (recommender89 "welcome-quiz" 0).recommendedQuestion.questionId :=
  ⟨by decide,
   (served_id_not_excluded_or_from_recommender [] recommender89 trivialEvalOracle id
      "newQat" 50 "user1" "welcome-quiz" none).2 (by decide)⟩

/-- C4: when the endpoint creates a new instance, CustomEval is invoked iff
the recommended question is dynamic (`variationId = 0`); the persisted
variables are the evaluated ones for dynamic questions and the template's
stored ones otherwise; the persisted answers are a permutation (under any
permutation-valued shuffle, as CustomMath.shuffleArray is specified to be)
of the stored fixed answer set for static questions and of the evaluated
answers for dynamic questions (whose stored answer set is `undefined`). -/
theorem creation_eval_iff_dynamic
    (hfresh : findNewest (db.filter (qatMatches uid course (excludedIds prevId))) = none)
    (hshuffle : ∀ l, List.Perm (shuffle l) l) :
    ((handler db recommend custEval shuffle newQatId now uid course prevId).usedEval = true ↔
      (recommend course 0).recommendedQuestion.variationId = 0) ∧
    ((recommend course 0).recommendedQuestion.variationId = 0 →
      (handler db recommend custEval shuffle newQatId now uid course prevId).response.vars
          = (custEval (recommend course 0).recommendedQuestion.questionData.vars
              (recommend course 0).recommendedQuestion.questionData.methods).questionVariables ∧
      ((recommend course 0).recommendedQuestion.questionData.answers = none →
        ∃ l, (handler db recommend custEval shuffle newQatId now uid course
            prevId).response.answers = some l ∧
          List.Perm l (custEval (recommend course 0).recommendedQuestion.questionData.vars
            (recommend course 0).recommendedQuestion.questionData.methods).questionAnswers)) ∧
    ((recommend course 0).recommendedQuestion.variationId ≠ 0 →
      (handler db recommend custEval shuffle newQatId now uid course prevId).response.vars
          = (recommend course 0).recommendedQuestion.questionData.vars ∧
      ∀ aset, (recommend course 0).recommendedQuestion.questionData.answers = some aset →
        ∃ l, (handler db recommend custEval shuffle newQatId now uid course
            prevId).response.answers = some l ∧ List.Perm l aset) := by
  rw [handler_fresh db recommend custEval shuffle newQatId now uid course prevId hfresh]
  refine ⟨by simp, fun hdyn => ?_, fun hstat => ?_⟩
  · constructor
    · show (createdRow (recommend course 0) custEval shuffle newQatId now uid course).vars = _
      simp [createdRow, hdyn]
    · intro hnone
      refine ⟨shuffle (custEval (recommend course 0).recommendedQuestion.questionData.vars
        (recommend course 0).recommendedQuestion.questionData.methods).questionAnswers,
        ?_, hshuffle _⟩
      show (createdRow (recommend course 0) custEval shuffle newQatId now uid course).answers = _
      simp [createdRow, hdyn, hnone, Option.orElse]
  · constructor
    · show (createdRow (recommend course 0) custEval shuffle newQatId now uid course).vars = _
      simp [createdRow, hstat]
    · intro aset hsome
      refine ⟨shuffle aset, ?_, hshuffle _⟩
      show (createdRow (recommend course 0) custEval shuffle newQatId now uid course).answers = _
      simp [createdRow, hstat, hsome, Option.orElse]

/-- Witness for C4 at a concrete input: the static question scenario with
the identity shuffle. -/
theorem creation_eval_iff_dynamic_witness :
    findNewest ([].filter (qatMatches "user1" "welcome-quiz" (excludedIds none))) = none ∧
    (((handler [] recommender89 trivialEvalOracle id "newQat" 50 "user1" "welcome-quiz"
          none).usedEval = true ↔
        (recommender89 "welcome-quiz" 0).recommendedQuestion.variationId = 0) ∧
      ((recommender89 "welcome-quiz" 0).recommendedQuestion.variationId ≠ 0 →
        (handler [] recommender89 trivialEvalOracle id "newQat" 50 "user1" "welcome-quiz"
            none).response.vars
          = (recommender89 "welcome-quiz" 0).recommendedQuestion.questionData.vars)) :=
  ⟨rfl, by
    have h := creation_eval_iff_dynamic [] recommender89 trivialEvalOracle id "newQat" 50
      "user1" "welcome-quiz" none rfl (fun l => List.Perm.refl l)
    exact ⟨h.1, fun hs => (h.2.2 hs).1⟩⟩

end Handler

/-! ## C5: the gap-filling variation id of the question editor

From src/leetnode/src/pages/quiz/index.tsx (Base Question onChange):
  `const unusedVariationId = variationIds?.reduce((acc, curr) => {
     if (curr > acc && !variationIds.includes(acc)) { return acc; }
     return curr + 1; }, 1);`
-/

/-- The editor's computation of the variation id to assign to a new static
variation of a base question, given the variation ids already in use. -/
def unusedVariationId (variationIds : List Nat) : Nat :=
  variationIds.foldl
    (fun acc curr => if curr > acc ∧ acc ∉ variationIds then acc else curr + 1) 1

lemma unusedVariationId_fold_invariant (L : List Nat) (hL : List.Sorted (· < ·) L) :
    ∀ (suf : List Nat) (acc : Nat),
      suf <:+ L →
      1 ≤ acc →
      (∀ k, 1 ≤ k → k < acc → k ∈ L) →
      (∀ y ∈ suf, acc ≤ y) →
      (acc ∈ L → acc ∈ suf) →
      1 ≤ suf.foldl (fun acc curr => if curr > acc ∧ acc ∉ L then acc else curr + 1) acc ∧
      suf.foldl (fun acc curr => if curr > acc ∧ acc ∉ L then acc else curr + 1) acc ∉ L ∧
      ∀ k, 1 ≤ k →
        k < suf.foldl (fun acc curr => if curr > acc ∧ acc ∉ L then acc else curr + 1) acc →
        k ∈ L := by
  intro suf
  induction suf with
  | nil =>
      intro acc _ h1 h2 _ h4
      exact ⟨h1, fun hmem => absurd (h4 hmem) (List.not_mem_nil _), h2⟩
  | cons c rest ih =>
      intro acc hsuf h1 h2 h3 h4
      rw [List.foldl_cons]
      have hrest_suf : rest <:+ L := (List.suffix_cons c rest).trans hsuf
      have hc_mem : c ∈ L := hsuf.subset (List.mem_cons_self c rest)
      have hsorted_cr : List.Sorted (· < ·) (c :: rest) :=
        List.Pairwise.sublist hsuf.sublist hL
      have hrest_gt : ∀ y ∈ rest, c < y := (List.sorted_cons.mp hsorted_cr).1
      have hgtc_mem_rest : ∀ x ∈ L, c < x → x ∈ rest := by
        obtain ⟨pre, hpre⟩ := hsuf
        intro x hx hcx
        rw [← hpre] at hx hL
        have hpre_lt := (List.pairwise_append.mp hL).2.2
        rcases List.mem_append.mp hx with hxp | hxc
        · exact absurd hcx (not_lt.mpr (le_of_lt (hpre_lt x hxp c (List.mem_cons_self c rest))))
        · rcases List.mem_cons.mp hxc with rfl | hxr
          · exact absurd hcx (lt_irrefl x)
          · exact hxr
      by_cases hcase : c > acc ∧ acc ∉ L
      · rw [if_pos hcase]
        exact ih acc hrest_suf h1 h2
          (fun y hy => le_of_lt (lt_of_lt_of_le hcase.1 (le_of_lt (hrest_gt y hy))))
          (fun hmem => absurd hmem hcase.2)
      · rw [if_neg hcase]
        have haccc : acc = c := by
          have hle : acc ≤ c := h3 c (List.mem_cons_self c rest)
          rcases lt_or_eq_of_le hle with hlt | heq
          · have haccL : acc ∈ L := by
              by_contra hnot
              exact hcase ⟨hlt, hnot⟩
            rcases List.mem_cons.mp (h4 haccL) with rfl | hmemr
            · exact absurd hlt (lt_irrefl _)
            · exact absurd (hrest_gt acc hmemr) (not_lt.mpr (le_of_lt hlt))
          · exact heq
        subst haccc
        refine ih (acc + 1) hrest_suf (by omega) ?_ ?_ ?_
        · intro k hk1 hklt
          rcases Nat.lt_succ_iff_lt_or_eq.mp hklt with hk | rfl
          · exact h2 k hk1 hk
          · exact hc_mem
        · intro y hy
          exact Nat.succ_le_of_lt (hrest_gt y hy)
        · intro hmem
          exact hgtc_mem_rest (acc + 1) hmem (Nat.lt_succ_self acc)

/-- C5 counterexample: for the input ordering [2, 1] of the used variation
ids, the computation returns 2, which is already present in the list — not
the smallest unused positive integer (which is 3). -/
theorem unusedVariationId_unsorted_counterexample :
    unusedVariationId [2, 1] = 2 ∧ 2 ∈ [2, 1] := by
  decide

/-- C5 (amended): when the list of already-used variation ids is strictly
ascending (the order in which the API returns them) and its entries are
positive, the computation returns the smallest positive integer not present
in the list. -/
theorem unusedVariationId_sorted_least_unused (l : List Nat) (_hne : l ≠ [])
    (hsorted : List.Sorted (· < ·) l) (hpos : ∀ x ∈ l, 1 ≤ x) :
    1 ≤ unusedVariationId l ∧ unusedVariationId l ∉ l ∧
    ∀ k, 1 ≤ k → k < unusedVariationId l → k ∈ l := by
  have h := unusedVariationId_fold_invariant l hsorted l 1 (List.suffix_refl l)
    (le_refl 1) (fun k hk1 hk2 => absurd (lt_of_le_of_lt hk1 hk2) (lt_irrefl 1))
    hpos (fun hmem => hmem)
  exact h

/-- Witness for C5 (amended) at a concrete input: for the ascending id list
[1, 2, 5] the computation fills the gap with 3. -/
theorem unusedVariationId_sorted_least_unused_witness :
    (([1, 2, 5] : List Nat) ≠ [] ∧ List.Sorted (· < ·) ([1, 2, 5] : List Nat) ∧
      ∀ x ∈ ([1, 2, 5] : List Nat), 1 ≤ x) ∧
    unusedVariationId [1, 2, 5] = 3 ∧
    (1 ≤ unusedVariationId [1, 2, 5] ∧ unusedVariationId [1, 2, 5] ∉ [1, 2, 5] ∧
      ∀ k, 1 ≤ k → k < unusedVariationId [1, 2, 5] → k ∈ [1, 2, 5]) :=
  ⟨⟨by decide, by decide, by decide⟩, by decide,
   unusedVariationId_sorted_least_unused [1, 2, 5] (by decide) (by decide) (by decide)⟩

/-! ## C6: Mastery creation defaults

The Prisma schema (glued into src/leetnode/src/utils/CustomVerification.ts)
declares `Topic.topicPrior Float @default(0.25)`, `Mastery.errorMeter Int
@default(0)` and `Mastery.topicPing Boolean @default(false)`. -/

/-- The schema default of `Topic.topicPrior`. -/
def topicPriorDefault : Rat := 1 / 4

/-- A `Topic` row of the Prisma schema (the fields the claims use). -/
structure Topic where
  topicSlug : String
  topicName : String
  topicPrior : Rat
  deriving Repr, DecidableEq

/-- A `Mastery` row of the Prisma schema; `topicPing` is the flagged
indicator and `lastFlagged` a nullable timestamp. -/
structure Mastery where
  userId : String
  topicSlug : String
  masteryLevel : Rat
  topicPing : Bool
  lastFlagged : Option Nat
  errorMeter : Nat
  weeklyMasteryLevel : Rat
  fortnightlyMasteryLevel : Rat
  deriving Repr, DecidableEq

/-- Modelled from the spec: the `initialize(topic)` operation of the Mastery
Model (spec 4.2) — the code that creates Mastery records (the submitAnswer
endpoint / Recommender) is not under src/.  Per the spec, if no record
exists for the (user, topic) pair, one is created with mastery =
topic.prior, errorMeter = 0, flagged = false; the remaining fields keep the
schema defaults of the Prisma `Mastery` model (zero aggregates, null
lastFlagged). -/
def initializeMastery (db : List Mastery) (uid : String) (t : Topic) : List Mastery :=
  if db.any (fun m => m.userId == uid && m.topicSlug == t.topicSlug) then db
  else ⟨uid, t.topicSlug, t.topicPrior, false, none, 0, 0, 0⟩ :: db

/-- C6: when a Mastery record is first created for a (user, topic) pair, its
mastery level equals the topic's prior — whose schema default is 0.25 — its
errorMeter is 0 and its flagged indicator is false. -/
theorem mastery_created_with_prior_defaults (db : List Mastery) (uid : String) (t : Topic)
    (hnone : db.any (fun m => m.userId == uid && m.topicSlug == t.topicSlug) = false) :
    ∃ m : Mastery, initializeMastery db uid t = m :: db ∧
      m.userId = uid ∧ m.topicSlug = t.topicSlug ∧
      m.masteryLevel = t.topicPrior ∧ m.errorMeter = 0 ∧ m.topicPing = false ∧
      (t.topicPrior = topicPriorDefault → m.masteryLevel = 1 / 4) := by
  refine ⟨⟨uid, t.topicSlug, t.topicPrior, false, none, 0, 0, 0⟩, ?_, rfl, rfl, rfl, rfl, rfl,
    fun hp => hp⟩
  unfold initializeMastery
  rw [hnone]
  rfl

/-- Witness for C6 at a concrete input: an empty Mastery table and a topic
carrying the schema default prior. -/
theorem mastery_created_with_prior_defaults_witness :
    ([] : List Mastery).any
        (fun m => m.userId == "user1" && m.topicSlug == "topic-a") = false ∧
    ∃ m : Mastery,
      initializeMastery [] "user1" ⟨"topic-a", "Topic A", topicPriorDefault⟩ = [m] ∧
      m.userId = "user1" ∧ m.topicSlug = "topic-a" ∧
      m.masteryLevel = topicPriorDefault ∧ m.errorMeter = 0 ∧ m.topicPing = false ∧
      (topicPriorDefault = topicPriorDefault → m.masteryLevel = 1 / 4) :=
  ⟨rfl,
   mastery_created_with_prior_defaults [] "user1" ⟨"topic-a", "Topic A", topicPriorDefault⟩ rfl⟩

/-! ## C8 and C10: the welcome-quiz page

From src/leetnode/src/pages/quiz/index.tsx (`QuizQuestion`). -/

/-- `const maxQnCount = 15` of the quiz page. -/
def maxQnCount : Nat := 15

/-- The mutually exclusive views the `QuizQuestion` component can return, in
the order the source checks them: the loader while the query is unresolved,
the "Stay tuned" empty state when the endpoint returned no data, the review
AppShell, and the question form. -/
inductive QuizView where
  | loading
  | emptyState (message : String)
  | review
  | questionForm (qatId : String)
  deriving Repr, DecidableEq

/-- The render function of `QuizQuestion`: `ucqat = none` models the query
not yet resolved (`!UCQAT`), `some none` a resolved response with no data
(`!UCQAT.data`), and `some (some row)` a served instance.  The review view
is chosen when `qnCount === maxQnCount || !user?.data.isNewUser`. -/
def renderQuizQuestion (ucqat : Option (Option QAT)) (qnCount : Nat)
    (isNewUser : Bool) : QuizView :=
  match ucqat with
  | none => QuizView.loading
  | some none => QuizView.emptyState "Stay tuned, more questions are coming your way!"
  | some (some row) =>
      if qnCount = maxQnCount ∨ isNewUser = false then QuizView.review
      else QuizView.questionForm row.qatId

/-- C8: when the question-serving endpoint returns no data, the quiz page
renders the "Stay tuned" empty state and never a question form, for every
counter value and user status. -/
theorem empty_response_renders_empty_state (qnCount : Nat) (isNewUser : Bool) :
    renderQuizQuestion (some none) qnCount isNewUser
        = QuizView.emptyState "Stay tuned, more questions are coming your way!" ∧
    ∀ qid, renderQuizQuestion (some none) qnCount isNewUser ≠ QuizView.questionForm qid :=
  ⟨rfl, fun _ h => QuizView.noConfusion h⟩

/-! ## C7: malformed method expressions

The editor's zod schema validates each method `expr` against the regex
`^[^=]+=[^=]+$`; the `handlePreviewChange` catch branch parses an error with
`cause === "invalid-methods"` into `{message, index, expr, sanitized,
encoded}` and renders an error toast from those fields. -/

/-- The regex `^[^=]+=[^=]+$` of the editor's methods zod schema, on the
character list of the expression: a nonempty run of non-equals characters,
one equals sign, and a nonempty equals-free remainder. -/
def matchesMethodPattern (cs : List Char) : Bool :=
  match cs.dropWhile (fun c => c != '=') with
  | [] => false
  | _ :: b =>
      !(cs.takeWhile (fun c => c != '=')).isEmpty && !b.isEmpty && !(b.contains '=')

lemma count_takeWhile_ne_eq_zero (cs : List Char) :
    (cs.takeWhile (fun c => c != '=')).count '=' = 0 := by
  rw [List.count_eq_zero]
  intro hmem
  have := List.mem_takeWhile_imp hmem
  simp at this

lemma dropWhile_ne_head (cs : List Char) {d : Char} {b : List Char}
    (h : cs.dropWhile (fun c => c != '=') = d :: b) : d = '=' := by
  have hh := List.head?_dropWhile_not (fun c => c != '=') cs
  rw [h] at hh
  simp only [List.head?_cons] at hh
  simpa using hh

/-- A string matching the editor's method pattern contains exactly one
equals sign. -/
lemma matchesMethodPattern_count_eq_one {cs : List Char}
    (h : matchesMethodPattern cs = true) : cs.count '=' = 1 := by
  unfold matchesMethodPattern at h
  cases hdrop : cs.dropWhile (fun c => c != '=') with
  | nil => rw [hdrop] at h; cases h
  | cons d b =>
      rw [hdrop] at h
      simp only [Bool.and_eq_true, Bool.not_eq_true'] at h
      have hd : d = '=' := dropWhile_ne_head cs hdrop
      have hsplit := List.takeWhile_append_dropWhile (fun c => c != '=') cs
      have hcount : cs.count '=' =
          (cs.takeWhile (fun c => c != '=')).count '='
            + (cs.dropWhile (fun c => c != '=')).count '=' := by
        conv_lhs => rw [← hsplit]
        exact List.count_append '=' _ _
      rw [hcount, count_takeWhile_ne_eq_zero, hdrop, hd]
      have hbzero : b.count '=' = 0 := by
        rw [List.count_eq_zero]
        intro hmem
        have : b.contains '=' = true := contains_eq_true_iff_mem.mpr hmem
        rw [h.2] at this
        cases this
      rw [List.count_cons_self, hbzero]

/-- The diagnostic payload of an EvaluationError, as the catch branch of
`handlePreviewChange` parses it: `{message, index, expr, sanitized,
encoded}`. -/
structure EvalErrorData where
  message : String
  index : Nat
  expr : String
  sanitized : String
  encoded : String
  deriving Repr, DecidableEq

/-- Modelled from the spec: the method-validation pass of `CustomEval`
(src/leetnode/src/utils/CustomEval.ts is not under src/).  Methods are
checked in order against the editor's one-equals pattern; the first
malformed one fails evaluation with an EvaluationError carrying that
method's index, its expression and its sanitized and encoded (substituted)
forms — the sanitizer and encoder are abstracted as parameters. -/
def evalMethodsGo (sanitize encode : String → String) :
    Nat → List MethodSpec → Except EvalErrorData Unit
  | _, [] => Except.ok ()
  | i, m :: rest =>
      if matchesMethodPattern m.expr.toList then evalMethodsGo sanitize encode (i + 1) rest
      else Except.error ⟨"invalid-methods", i, m.expr, sanitize m.expr, encode m.expr⟩

/-- Modelled from the spec: `CustomEval`'s method validation over a whole
method list, starting at index 0. -/
def evalMethodsCheck (sanitize encode : String → String)
    (methods : List MethodSpec) : Except EvalErrorData Unit :=
  evalMethodsGo sanitize encode 0 methods

/-- What `handlePreviewChange` does with the evaluation outcome: a
successful evaluation updates the preview; an EvaluationError is caught and
reported as an error toast carrying message, index, expr, sanitized and
encoded — the caller never crashes (this function is total). -/
inductive PreviewOutcome where
  | updated
  | reportedError (message : String) (index : Nat) (expr sanitized encoded : String)
  deriving Repr, DecidableEq

/-- The catch-wrapped preview update of `handlePreviewChange` for a dynamic
question: total in the evaluation outcome. -/
def handlePreviewOutcome (sanitize encode : String → String)
    (methods : List MethodSpec) : PreviewOutcome :=
  match evalMethodsCheck sanitize encode methods with
  | Except.ok _ => PreviewOutcome.updated
  | Except.error e =>
      PreviewOutcome.reportedError e.message e.index e.expr e.sanitized e.encoded

lemma evalMethodsGo_error_at (sanitize encode : String → String) :
    ∀ (ms : List MethodSpec) (base i : Nat) (m : MethodSpec),
      ms.get? i = some m →
      matchesMethodPattern m.expr.toList = false →
      (∀ j mj, j < i → ms.get? j = some mj → matchesMethodPattern mj.expr.toList = true) →
      evalMethodsGo sanitize encode base ms =
        Except.error ⟨"invalid-methods", base + i, m.expr, sanitize m.expr, encode m.expr⟩ := by
  intro ms
  induction ms with
  | nil =>
      intro base i m hget _ _
      simp [List.get?] at hget
  | cons hd tl ih =>
      intro base i m hget hbad hprior
      cases i with
      | zero =>
          have hm : hd = m := by simpa [List.get?] using hget
          subst hm
          unfold evalMethodsGo
          rw [if_neg (by rw [hbad]; exact Bool.false_ne_true), Nat.add_zero]
      | succ j =>
          have hhd : matchesMethodPattern hd.expr.toList = true :=
            hprior 0 hd (Nat.succ_pos j) rfl
          unfold evalMethodsGo
          rw [if_pos hhd]
          have htl := ih (base + 1) j m (by simpa [List.get?] using hget) hbad
            (fun k mk hk hgk => hprior (k + 1) mk (Nat.succ_lt_succ hk)
              (by simpa [List.get?] using hgk))
          rw [htl]
          have harith : base + 1 + j = base + (j + 1) := by omega
          rw [harith]

/-- C7: a method expression without exactly one equals sign is rejected by
the editor's zod pattern, and evaluation of a method list whose first
malformed method sits at index i fails with an EvaluationError carrying
index i, the offending expression and its sanitized and encoded forms; the
caller catches it and reports those fields rather than crashing. -/
theorem malformed_method_rejected_and_reported
    (sanitize encode : String → String) (methods : List MethodSpec)
    (i : Nat) (m : MethodSpec)
    (hget : methods.get? i = some m)
    (hbad : m.expr.toList.count '=' ≠ 1)
    (hprior : ∀ j mj, j < i → methods.get? j = some mj →
      matchesMethodPattern mj.expr.toList = true) :
    matchesMethodPattern m.expr.toList = false ∧
    evalMethodsCheck sanitize encode methods =
      Except.error ⟨"invalid-methods", i, m.expr, sanitize m.expr, encode m.expr⟩ ∧
    handlePreviewOutcome sanitize encode methods =
      PreviewOutcome.reportedError "invalid-methods" i m.expr (sanitize m.expr)
        (encode m.expr) := by
  have hfalse : matchesMethodPattern m.expr.toList = false := by
    cases hp : matchesMethodPattern m.expr.toList with
    | false => rfl
    | true => exact absurd (matchesMethodPattern_count_eq_one hp) hbad
  have herr := evalMethodsGo_error_at sanitize encode methods 0 i m hget hfalse hprior
  rw [Nat.zero_add] at herr
  refine ⟨hfalse, herr, ?_⟩
  unfold handlePreviewOutcome
  rw [show evalMethodsCheck sanitize encode methods =
    Except.error ⟨"invalid-methods", i, m.expr, sanitize m.expr, encode m.expr⟩ from herr]

/-- Witness for C7 at a concrete input: the method list whose second entry
has two equals signs. -/
theorem malformed_method_rejected_and_reported_witness :
    ([⟨"y = x + 1", none⟩, ⟨"z = y = 2", none⟩] : List MethodSpec).get? 1
        = some ⟨"z = y = 2", none⟩ ∧
    ("z = y = 2" : String).toList.count '=' ≠ 1 ∧
    (matchesMethodPattern ("z = y = 2" : String).toList = false ∧
      evalMethodsCheck id id [⟨"y = x + 1", none⟩, ⟨"z = y = 2", none⟩] =
        Except.error ⟨"invalid-methods", 1, "z = y = 2", "z = y = 2", "z = y = 2"⟩ ∧
      handlePreviewOutcome id id [⟨"y = x + 1", none⟩, ⟨"z = y = 2", none⟩] =
        PreviewOutcome.reportedError "invalid-methods" 1 "z = y = 2" "z = y = 2"
          "z = y = 2") :=
  ⟨rfl, by decide,
   malformed_method_rejected_and_reported id id
     [⟨"y = x + 1", none⟩, ⟨"z = y = 2", none⟩] 1 ⟨"z = y = 2", none⟩ rfl (by decide)
     (fun j mj hj hgj => by
       interval_cases j
       · simp only [List.get?] at hgj
         cases Option.some_inj.mp hgj
         decide)⟩

/-! ## C10: the welcome-quiz session

From src/leetnode/src/pages/quiz/index.tsx: `maxQnCount = 15`; the
`useSubmitAnswer` onSuccess runs `setQnCount((prev) => prev + 1)` and then
`if (qnCount < maxQnCount) queryClient.invalidateQueries(["get-ucqat"])`,
where `qnCount` is the stale pre-increment closure value; the page renders
the review AppShell instead of the question form when
`qnCount === maxQnCount || !user?.data.isNewUser`. -/

/-- The quiz page's session-relevant state: the submitted-answer counter and
the number of times the get-ucqat query has been fetched (1 on mount). -/
structure QuizSessionState where
  qnCount : Nat
  fetchCount : Nat
  deriving Repr, DecidableEq

/-- Observable events of one onSuccess run, in statement order: the counter
update committed by `setQnCount`, then — read from the stale pre-increment
counter — the conditional invalidation that refetches the recommended
question. -/
inductive QuizEvent where
  | counterReached (n : Nat)
  | fetchTriggered
  deriving Repr, DecidableEq

/-- The state change of one submitAnswer onSuccess. -/
def submitStep (s : QuizSessionState) : QuizSessionState :=
  ⟨s.qnCount + 1,
   if s.qnCount < maxQnCount then s.fetchCount + 1 else s.fetchCount⟩

/-- The events of one submitAnswer onSuccess. -/
def submitEvents (s : QuizSessionState) : List QuizEvent :=
  QuizEvent.counterReached (s.qnCount + 1) ::
    (if s.qnCount < maxQnCount then [QuizEvent.fetchTriggered] else [])

/-- Whether the question form, and with it the Submit button, is rendered:
false when `qnCount === maxQnCount || !user?.data.isNewUser`. -/
def showsQuestionForm (isNewUser : Bool) (s : QuizSessionState) : Bool :=
  !(s.qnCount == maxQnCount) && isNewUser

/-- A welcome-quiz session in which the learner tries to submit `n` answers:
a submission is processed only while the question form is rendered.  The
initial state has counter 0 and the one mount-time fetch. -/
def quizSession (isNewUser : Bool) : Nat → QuizSessionState × List QuizEvent
  | 0 => (⟨0, 1⟩, [])
  | n + 1 =>
      if showsQuestionForm isNewUser (quizSession isNewUser n).1 then
        (submitStep (quizSession isNewUser n).1,
         (quizSession isNewUser n).2 ++ submitEvents (quizSession isNewUser n).1)
      else quizSession isNewUser n

lemma quizSession_invariant (u : Bool) (n : Nat) :
    (quizSession u n).1.qnCount ≤ maxQnCount ∧
    (quizSession u n).1.fetchCount = (quizSession u n).1.qnCount + 1 := by
  induction n with
  | zero => exact ⟨by simp [quizSession, maxQnCount], rfl⟩
  | succ n ih =>
      by_cases hshow : showsQuestionForm u (quizSession u n).1 = true
      · have hne : (quizSession u n).1.qnCount ≠ maxQnCount := by
          unfold showsQuestionForm at hshow
          simp only [Bool.and_eq_true, Bool.not_eq_true', beq_eq_false_iff_ne] at hshow
          exact hshow.1
        have hlt : (quizSession u n).1.qnCount < maxQnCount :=
          lt_of_le_of_ne ih.1 hne
        rw [show quizSession u (n + 1) =
          (submitStep (quizSession u n).1,
           (quizSession u n).2 ++ submitEvents (quizSession u n).1) by
            rw [quizSession, if_pos hshow]]
        refine ⟨?_, ?_⟩
        · show (quizSession u n).1.qnCount + 1 ≤ maxQnCount
          omega
        · show (if (quizSession u n).1.qnCount < maxQnCount
              then (quizSession u n).1.fetchCount + 1
              else (quizSession u n).1.fetchCount)
            = (quizSession u n).1.qnCount + 1 + 1
          rw [if_pos hlt, ih.2]
      · rw [show quizSession u (n + 1) = quizSession u n by
          rw [quizSession, if_neg hshow]]
        exact ih

lemma quizSession_constant_after_max (u : Bool) (n : Nat) (hn : maxQnCount ≤ n) :
    quizSession u n = quizSession u maxQnCount := by
  induction n with
  | zero => exact absurd hn (by simp [maxQnCount])
  | succ n ih =>
      by_cases hcase : maxQnCount ≤ n
      · have heq := ih hcase
        have hform : showsQuestionForm u (quizSession u n).1 = false := by
          rw [heq]
          cases u with
          | false => simp [showsQuestionForm]
          | true =>
              have hq : (quizSession true maxQnCount).1.qnCount = maxQnCount := by decide
              simp [showsQuestionForm, hq]
        rw [quizSession, if_neg (by rw [hform]; exact Bool.false_ne_true)]
        exact heq
      · have : n + 1 = maxQnCount := by omega
        rw [this]

/-- C10 (amended): in a welcome-quiz session the submitted-answer counter
never exceeds 15, so at most 15 questions are answered; once it reaches 15
the state is frozen — the question form is never rendered again, so no
further submission and no later fetch happens; but because the onSuccess
guard reads the stale pre-increment counter, every one of the 15
submissions — the 15th included — triggers a refetch, so the get-ucqat
query is fetched up to 16 times. -/
theorem quiz_session_bounded_and_review_permanent (u : Bool) (n : Nat) :
    (quizSession u n).1.qnCount ≤ maxQnCount ∧
    (quizSession u n).1.fetchCount ≤ maxQnCount + 1 ∧
    (maxQnCount ≤ n →
      quizSession u n = quizSession u maxQnCount ∧
      showsQuestionForm u (quizSession u n).1 = false ∧
      ∀ row : QAT, renderQuizQuestion (some (some row)) (quizSession u n).1.qnCount u
        = QuizView.review) := by
  obtain ⟨hbound, hfetch⟩ := quizSession_invariant u n
  refine ⟨hbound, by omega, fun hn => ?_⟩
  have heq := quizSession_constant_after_max u n hn
  have hform : showsQuestionForm u (quizSession u n).1 = false := by
    rw [heq]
    cases u with
    | false => simp [showsQuestionForm]
    | true =>
        have hq : (quizSession true maxQnCount).1.qnCount = maxQnCount := by decide
        simp [showsQuestionForm, hq]
  refine ⟨heq, hform, fun row => ?_⟩
  unfold showsQuestionForm at hform
  simp only [Bool.and_eq_false_iff, Bool.not_eq_false', beq_iff_eq] at hform
  show (if (quizSession u n).1.qnCount = maxQnCount ∨ u = false then QuizView.review
    else QuizView.questionForm row.qatId) = QuizView.review
  rcases hform with hq | hu
  · rw [if_pos (Or.inl hq)]
  · rw [if_pos (Or.inr hu)]

/-- Witness for C10 (amended) at a concrete input: a session of 20 attempted
submissions by a new user. -/
theorem quiz_session_bounded_and_review_permanent_witness :
    (quizSession true 20).1.qnCount ≤ maxQnCount ∧
    (quizSession true 20).1.fetchCount ≤ maxQnCount + 1 ∧
    (quizSession true 20 = quizSession true maxQnCount ∧
      showsQuestionForm true (quizSession true 20).1 = false ∧
      ∀ row : QAT, renderQuizQuestion (some (some row)) (quizSession true 20).1.qnCount true
        = QuizView.review) :=
  ⟨(quiz_session_bounded_and_review_permanent true 20).1,
   (quiz_session_bounded_and_review_permanent true 20).2.1,
   (quiz_session_bounded_and_review_permanent true 20).2.2 (by decide)⟩

/-- C10 counterexample: in the 15-submission session of a new user the event
trace ends with the counter reaching 15 followed by one more fetch of the
recommended-question query — the onSuccess of the 15th submission still
invalidates get-ucqat because its guard compares the stale pre-increment
counter 14 against 15. -/
theorem fetch_after_counter_reaches_max_counterexample :
    (quizSession true 15).1.qnCount = maxQnCount ∧
    (quizSession true 15).2.length = 30 ∧
    (quizSession true 15).2.drop 28
      = [QuizEvent.counterReached 15, QuizEvent.fetchTriggered] ∧
    (quizSession true 15).1.fetchCount = 16 := by
  refine ⟨by decide, by decide, by decide, by decide⟩

end LeetNode
